import Mathlib

/-!
Verification of the aitios particle-transport core against its
natural-language specification.

The Rust source is embedded shallowly:

* f32 values that only pass through `+`, `-`, `*`, `/` and comparisons
  (substance transport, motion probabilities, ray/triangle intersection,
  barycentric coordinates) are modelled exactly over `ℚ`;
* quantities that pass through a square root (triangle areas, sampled
  surface points) are modelled over `ℝ` with `Real.sqrt`;
* the IEEE infinities used as fold identities by `src/geom/aabb.rs` are
  modelled by an explicit three-constructor extended-rational type with
  the f32 strict comparison (NaN never arises on the verified paths);
* the random number generator and the two direction computations that
  normalise vectors (reflection / flow directions in `src/sim/sim.rs`)
  are oracle inputs: each bounce consumes one `Choice` record holding
  the drawn settle value and the directions the normalisation pipeline
  produced, while the octree ray query and the surfel range query are
  oracle functions (both underlying structures are immutable during
  tracing, so modelling them as pure functions is faithful).
-/

/-- Exact model of cgmath's `Vector3<f32>` for code paths that use only
field operations (`src/geom/tri.rs`, `src/sim/sim.rs`). -/
structure Vec3 where
  x : ℚ
  y : ℚ
  z : ℚ
deriving DecidableEq

instance : Add Vec3 := ⟨fun a b => ⟨a.x + b.x, a.y + b.y, a.z + b.z⟩⟩

instance : Sub Vec3 := ⟨fun a b => ⟨a.x - b.x, a.y - b.y, a.z - b.z⟩⟩

instance : SMul ℚ Vec3 := ⟨fun q v => ⟨q * v.x, q * v.y, q * v.z⟩⟩

instance : Inhabited Vec3 := ⟨⟨0, 0, 0⟩⟩

@[simp] lemma Vec3.add_x (a b : Vec3) : (a + b).x = a.x + b.x := rfl

@[simp] lemma Vec3.add_y (a b : Vec3) : (a + b).y = a.y + b.y := rfl

@[simp] lemma Vec3.add_z (a b : Vec3) : (a + b).z = a.z + b.z := rfl

@[simp] lemma Vec3.sub_x (a b : Vec3) : (a - b).x = a.x - b.x := rfl

@[simp] lemma Vec3.sub_y (a b : Vec3) : (a - b).y = a.y - b.y := rfl

@[simp] lemma Vec3.sub_z (a b : Vec3) : (a - b).z = a.z - b.z := rfl

@[simp] lemma Vec3.smul_x (q : ℚ) (v : Vec3) : (q • v).x = q * v.x := rfl

@[simp] lemma Vec3.smul_y (q : ℚ) (v : Vec3) : (q • v).y = q * v.y := rfl

@[simp] lemma Vec3.smul_z (q : ℚ) (v : Vec3) : (q • v).z = q * v.z := rfl

lemma Vec3.ext_xyz {a b : Vec3} (hx : a.x = b.x) (hy : a.y = b.y) (hz : a.z = b.z) :
    a = b := by
  cases a
  cases b
  simp only [Vec3.mk.injEq]
  exact ⟨hx, hy, hz⟩

/-- Model of cgmath's `Vector3::dot`. -/
def Vec3.dot (a b : Vec3) : ℚ := a.x * b.x + a.y * b.y + a.z * b.z

/-- Model of cgmath's `Vector3::cross`. -/
def Vec3.cross (a b : Vec3) : Vec3 :=
  ⟨a.y * b.z - a.z * b.y, a.z * b.x - a.x * b.z, a.x * b.y - a.y * b.x⟩

/-- Extended rationals: model of the f32 values flowing through
`src/geom/aabb.rs`, where `INFINITY` and `NEG_INFINITY` appear as fold
identities. -/
inductive XR where
  | negInf : XR
  | fin : ℚ → XR
  | posInf : XR
deriving DecidableEq

/-- Model of the f32 `<` comparison on non-NaN values. -/
def XR.lt : XR → XR → Bool
  | XR.negInf, XR.negInf => false
  | XR.negInf, _ => true
  | XR.fin _, XR.negInf => false
  | XR.fin a, XR.fin b => decide (a < b)
  | XR.fin _, XR.posInf => true
  | XR.posInf, _ => false

/-- Point with possibly infinite f32 coordinates, as consumed by
`Aabb::from_points`. -/
structure XVec3 where
  x : XR
  y : XR
  z : XR
deriving DecidableEq

/-- Model of `Aabb` from `src/geom/aabb.rs`. -/
structure Aabb where
  min : XVec3
  max : XVec3
deriving DecidableEq

/-- The fold identity used by both `Aabb::from_points` and `Aabb::union`:
`min = (+inf, +inf, +inf)`, `max = (-inf, -inf, -inf)`. -/
def aabbEmpty : Aabb :=
  ⟨⟨XR.posInf, XR.posInf, XR.posInf⟩, ⟨XR.negInf, XR.negInf, XR.negInf⟩⟩

/-- Fold body of `Aabb::from_points` (src/geom/aabb.rs lines 25-38):
componentwise `if p < min { p } else { min }` and
`if p > max { p } else { max }`. -/
def Aabb.includePoint (acc : Aabb) (p : XVec3) : Aabb :=
  ⟨⟨if XR.lt p.x acc.min.x then p.x else acc.min.x,
    if XR.lt p.y acc.min.y then p.y else acc.min.y,
    if XR.lt p.z acc.min.z then p.z else acc.min.z⟩,
   ⟨if XR.lt acc.max.x p.x then p.x else acc.max.x,
    if XR.lt acc.max.y p.y then p.y else acc.max.y,
    if XR.lt acc.max.z p.z then p.z else acc.max.z⟩⟩

/-- Model of `Aabb::from_points` (src/geom/aabb.rs lines 16-40). -/
def Aabb.from_points (points : List XVec3) : Aabb :=
  points.foldl Aabb.includePoint aabbEmpty

/-- Fold body of `Aabb::union` (src/geom/aabb.rs lines 54-67). -/
def Aabb.unionStep (acc bb : Aabb) : Aabb :=
  ⟨⟨if XR.lt bb.min.x acc.min.x then bb.min.x else acc.min.x,
    if XR.lt bb.min.y acc.min.y then bb.min.y else acc.min.y,
    if XR.lt bb.min.z acc.min.z then bb.min.z else acc.min.z⟩,
   ⟨if XR.lt acc.max.x bb.max.x then bb.max.x else acc.max.x,
    if XR.lt acc.max.y bb.max.y then bb.max.y else acc.max.y,
    if XR.lt acc.max.z bb.max.z then bb.max.z else acc.max.z⟩⟩

/-- Model of `Aabb::union` (src/geom/aabb.rs lines 45-69). -/
def Aabb.union (aabbs : List Aabb) : Aabb :=
  aabbs.foldl Aabb.unionStep aabbEmpty

lemma XR.lt_posInf_id (v : XR) : (if XR.lt v XR.posInf then v else XR.posInf) = v := by
  cases v <;> rfl

lemma XR.negInf_lt_id (v : XR) : (if XR.lt XR.negInf v then v else XR.negInf) = v := by
  cases v <;> rfl

lemma XR.posInf_lt (v : XR) : XR.lt XR.posInf v = false := rfl

lemma XR.lt_negInf (v : XR) : XR.lt v XR.negInf = false := by
  cases v <;> rfl

lemma Aabb.unionStep_empty_left (b : Aabb) : Aabb.unionStep aabbEmpty b = b := by
  obtain ⟨⟨mx, my, mz⟩, ⟨nx, ny, nz⟩⟩ := b
  simp only [Aabb.unionStep, aabbEmpty, XR.lt_posInf_id, XR.negInf_lt_id]

lemma Aabb.unionStep_empty_right (b : Aabb) : Aabb.unionStep b aabbEmpty = b := by
  obtain ⟨⟨mx, my, mz⟩, ⟨nx, ny, nz⟩⟩ := b
  simp only [Aabb.unionStep, aabbEmpty, XR.posInf_lt, XR.lt_negInf, Bool.false_eq_true,
    if_false]

/-- C7: `Aabb::from_points` and `Aabb::union` on an empty sequence both
return the box with `min = (+inf,+inf,+inf)` and `max = (-inf,-inf,-inf)`,
and that box is an identity element for union: merging it with any box
`b` (on either side, in particular folding `union` over just `[b]`)
yields `b` again. -/
theorem C7_aabb_empty_identity :
    Aabb.from_points [] = aabbEmpty ∧
    Aabb.union [] = aabbEmpty ∧
    ∀ b : Aabb,
      Aabb.union [b] = b ∧
      Aabb.unionStep aabbEmpty b = b ∧
      Aabb.unionStep b aabbEmpty = b := by
  refine ⟨rfl, rfl, fun b => ⟨?_, Aabb.unionStep_empty_left b, Aabb.unionStep_empty_right b⟩⟩
  show Aabb.unionStep aabbEmpty b = b
  exact Aabb.unionStep_empty_left b

/-- Model of `Triangle<V>` from `src/geom/tri.rs` specialised to
position-only vertices, which is the vertex data every verified code
path reads. -/
structure Triangle where
  v0 : Vec3
  v1 : Vec3
  v2 : Vec3
deriving DecidableEq

/-- The epsilon used by `Triangle::ray_intersection_parameter`
(src/geom/tri.rs line 284): `0.0000001`. -/
def rayEpsilon : ℚ := 1 / 10000000

/-- Model of `Triangle::ray_intersection_parameter`
(src/geom/tri.rs lines 279-318): Moeller-Trumbore with an epsilon guard
on the determinant and a rejection of parameters below epsilon. -/
def Triangle.ray_intersection_parameter (t : Triangle) (ray_origin ray_direction : Vec3) :
    Option ℚ :=
  let edge1 := t.v1 - t.v0
  let edge2 := t.v2 - t.v0
  let h := ray_direction.cross edge2
  let a := edge1.dot h
  if -rayEpsilon < a ∧ a < rayEpsilon then none
  else
    let f := 1 / a
    let s := ray_origin - t.v0
    let u := f * s.dot h
    if u < 0 ∨ u > 1 then none
    else
      let q := s.cross edge1
      let v := f * ray_direction.dot q
      if v < 0 ∨ u + v > 1 then none
      else
        let tres := f * edge2.dot q
        if tres < rayEpsilon then none
        else some tres

/-- The determinant `a = edge1 . (dir x edge2)` whose epsilon band makes
the intersection routine report a ray as parallel to the triangle
plane. -/
def Triangle.ray_det (t : Triangle) (ray_direction : Vec3) : ℚ :=
  (t.v1 - t.v0).dot (ray_direction.cross (t.v2 - t.v0))

/-- The triangle `((-1,-1,100),(1,-1,100),(0,1,200))` from the spec's
ray-intersection test. -/
def tri0 : Triangle := ⟨⟨-1, -1, 100⟩, ⟨1, -1, 100⟩, ⟨0, 1, 200⟩⟩

/-- C5: against `tri0` the ray from the origin along `(0,0,1)` intersects
at parameter 150, so the hit point is `(0,0,150)`; the opposite
direction `(0,0,-1)` yields no intersection; and in general the routine
returns `none` whenever the determinant lies inside the epsilon band
(ray parallel to the triangle plane within epsilon), and every returned
parameter satisfies `rayEpsilon <= t`. -/
theorem C5_ray_intersection :
    (Triangle.ray_intersection_parameter tri0 ⟨0, 0, 0⟩ ⟨0, 0, 1⟩ = some 150 ∧
      (⟨0, 0, 0⟩ : Vec3) + (150 : ℚ) • (⟨0, 0, 1⟩ : Vec3) = ⟨0, 0, 150⟩) ∧
    Triangle.ray_intersection_parameter tri0 ⟨0, 0, 0⟩ ⟨0, 0, -1⟩ = none ∧
    (∀ (tr : Triangle) (o d : Vec3),
      -rayEpsilon < tr.ray_det d → tr.ray_det d < rayEpsilon →
      Triangle.ray_intersection_parameter tr o d = none) ∧
    (∀ (tr : Triangle) (o d : Vec3) (tres : ℚ),
      Triangle.ray_intersection_parameter tr o d = some tres → rayEpsilon ≤ tres) := by
  refine ⟨⟨?_, ?_⟩, ?_, ?_, ?_⟩
  · simp only [Triangle.ray_intersection_parameter, tri0, Vec3.cross, Vec3.dot, rayEpsilon,
      Vec3.sub_x, Vec3.sub_y, Vec3.sub_z]
    norm_num
  · refine Vec3.ext_xyz ?_ ?_ ?_ <;> simp
  · simp only [Triangle.ray_intersection_parameter, tri0, Vec3.cross, Vec3.dot, rayEpsilon,
      Vec3.sub_x, Vec3.sub_y, Vec3.sub_z]
    norm_num
  · intro tr o d hlo hhi
    simp only [Triangle.ray_intersection_parameter]
    rw [if_pos]
    exact ⟨hlo, hhi⟩
  · intro tr o d tres h
    simp only [Triangle.ray_intersection_parameter] at h
    split at h
    · exact absurd h (by simp)
    · split at h
      · exact absurd h (by simp)
      · split at h
        · exact absurd h (by simp)
        · split at h
          · exact absurd h (by simp)
          · rename_i hnot
            rw [Option.some_inj] at h
            subst h
            exact le_of_not_lt hnot

/-- C5 witness: the general parts of `C5_ray_intersection` applied at
concrete inputs: the returned parameter 150 is at least epsilon, and a
fully degenerate triangle is reported as parallel. -/
theorem C5_ray_intersection_witness :
    rayEpsilon ≤ 150 ∧
    Triangle.ray_intersection_parameter ⟨⟨0, 0, 0⟩, ⟨0, 0, 0⟩, ⟨0, 0, 0⟩⟩ ⟨1, 2, 3⟩ ⟨0, 0, 1⟩ =
      none := by
  constructor
  · exact C5_ray_intersection.2.2.2 tri0 ⟨0, 0, 0⟩ ⟨0, 0, 1⟩ 150 C5_ray_intersection.1.1
  · refine C5_ray_intersection.2.2.1 ⟨⟨0, 0, 0⟩, ⟨0, 0, 0⟩, ⟨0, 0, 0⟩⟩ ⟨1, 2, 3⟩ ⟨0, 0, 1⟩ ?_ ?_ <;>
      · simp only [Triangle.ray_det, Vec3.cross, Vec3.dot, rayEpsilon, Vec3.sub_x, Vec3.sub_y,
          Vec3.sub_z]
        norm_num

/-- The denominator `d00*d11 - d01*d01` of the barycentric solve in
`Triangle::barycentric_at` (src/geom/tri.rs line 161); it is nonzero
exactly when the triangle is non-degenerate (its edge vectors are
linearly independent), which is what gives the triangle an interior. -/
def Triangle.bary_denom (t : Triangle) : ℚ :=
  let vv0 := t.v1 - t.v0
  let vv1 := t.v2 - t.v0
  vv0.dot vv0 * vv1.dot vv1 - vv0.dot vv1 * vv0.dot vv1

/-- Model of `Triangle::barycentric_at` (src/geom/tri.rs lines 151-168),
returning the weights `(u, v, w)`. -/
def Triangle.barycentric_at (t : Triangle) (p : Vec3) : ℚ × ℚ × ℚ :=
  let vv0 := t.v1 - t.v0
  let vv1 := t.v2 - t.v0
  let vv2 := p - t.v0
  let d00 := vv0.dot vv0
  let d01 := vv0.dot vv1
  let d11 := vv1.dot vv1
  let d20 := vv2.dot vv0
  let d21 := vv2.dot vv1
  let denom := d00 * d11 - d01 * d01
  let v := (d11 * d20 - d01 * d21) / denom
  let w := (d00 * d21 - d01 * d20) / denom
  (1 - v - w, v, w)

/-- Model of `Triangle::interpolate_at` (src/geom/tri.rs lines 170-181)
applied to the vertex position field: interpolate the vertex positions
with the barycentric weights of `p`. -/
def Triangle.interpolate_at (t : Triangle) (p : Vec3) : Vec3 :=
  let wts := t.barycentric_at p
  wts.1 • t.v0 + wts.2.1 • t.v1 + wts.2.2 • t.v2

/-- C8: for every non-degenerate triangle and every interior point `p`
(written with strictly positive barycentric coefficients summing to 1),
computing `p`'s weights with `barycentric_at` and interpolating the
vertex position field with them returns `p` itself; over the exact
rational model the round trip is the identity, which is the
floating-tolerance statement of the spec made exact. -/
theorem C8_barycentric_roundtrip (t : Triangle) (a b c : ℚ)
    (ha : 0 < a) (hb : 0 < b) (hc : 0 < c) (habc : a + b + c = 1)
    (hdenom : t.bary_denom ≠ 0) :
    t.interpolate_at (a • t.v0 + b • t.v1 + c • t.v2) =
      a • t.v0 + b • t.v1 + c • t.v2 := by
  have ha' : a = 1 - b - c := by linarith
  subst ha'
  obtain ⟨⟨x0, y0, z0⟩, ⟨x1, y1, z1⟩, ⟨x2, y2, z2⟩⟩ := t
  simp only [Triangle.bary_denom, Vec3.dot, Vec3.sub_x, Vec3.sub_y, Vec3.sub_z] at hdenom
  refine Vec3.ext_xyz ?_ ?_ ?_ <;>
    · simp only [Triangle.interpolate_at, Triangle.barycentric_at, Vec3.dot, Vec3.sub_x,
        Vec3.sub_y, Vec3.sub_z, Vec3.add_x, Vec3.add_y, Vec3.add_z, Vec3.smul_x, Vec3.smul_y,
        Vec3.smul_z]
      field_simp
      ring

/-- The triangle `((-1,-1,0),(1,-1,0),(0,1,0))` (base 2, height 2) used
by the spec's splitting/area and interpolation examples and by the
sampling-density computation. -/
def tri1 : Triangle := ⟨⟨-1, -1, 0⟩, ⟨1, -1, 0⟩, ⟨0, 1, 0⟩⟩

/-- C8 witness: the round trip at the centroid of `tri1`, with every
hypothesis of `C8_barycentric_roundtrip` discharged concretely. -/
theorem C8_barycentric_roundtrip_witness :
    tri1.interpolate_at ⟨0, -1/3, 0⟩ = ⟨0, -1/3, 0⟩ := by
  have hpt : ((1/3 : ℚ)) • tri1.v0 + ((1/3 : ℚ)) • tri1.v1 + ((1/3 : ℚ)) • tri1.v2 =
      (⟨0, -1/3, 0⟩ : Vec3) := by
    refine Vec3.ext_xyz ?_ ?_ ?_ <;>
      · simp only [tri1, Vec3.add_x, Vec3.add_y, Vec3.add_z, Vec3.smul_x, Vec3.smul_y,
          Vec3.smul_z]
        norm_num
  have h := C8_barycentric_roundtrip tri1 (1/3) (1/3) (1/3) (by norm_num) (by norm_num)
    (by norm_num) (by norm_num) (by
      simp only [tri1, Triangle.bary_denom, Vec3.dot, Vec3.sub_x, Vec3.sub_y, Vec3.sub_z]
      norm_num)
  rw [hpt] at h
  exact h

/-- Model of `Triangle::interpolate_vertex_at_bary`
(src/geom/tri.rs lines 229-239) for position-only vertices: the blend
`w0*v0 + w1*v1 + w2*v2`. -/
def Triangle.interpolate_vertex_at_bary (t : Triangle) (w0 w1 w2 : ℚ) : Vec3 :=
  w0 • t.v0 + w1 • t.v1 + w2 • t.v2

/-- Model of `Triangle::split_at_edge_midpoints`
(src/geom/tri.rs lines 241-273): the inner midpoint triangle followed by
the three outer triangles `(mids[i], verts[(i+1)%3], mids[(i+1)%3])`. -/
def Triangle.split_at_edge_midpoints (t : Triangle) : List Triangle :=
  let m0 := t.interpolate_vertex_at_bary (1/2) (1/2) 0
  let m1 := t.interpolate_vertex_at_bary 0 (1/2) (1/2)
  let m2 := t.interpolate_vertex_at_bary (1/2) 0 (1/2)
  [⟨m0, m1, m2⟩, ⟨m0, t.v1, m1⟩, ⟨m1, t.v2, m2⟩, ⟨m2, t.v0, m0⟩]

/-- Squared magnitude of the edge cross product `(v1-v0) x (v2-v0)`; the
source's `magnitude` is its square root. -/
def Triangle.crossMag2 (t : Triangle) : ℚ :=
  let c := (t.v1 - t.v0).cross (t.v2 - t.v0)
  c.dot c

/-- Model of `Triangle::area` (src/geom/tri.rs lines 50-56):
`||(v1-v0) x (v2-v0)|| / 2`, with the f32 square root modelled by
`Real.sqrt`. -/
noncomputable def Triangle.area (t : Triangle) : ℝ :=
  1 / 2 * Real.sqrt ((t.crossMag2 : ℝ))

lemma Triangle.crossMag2_nonneg (t : Triangle) : 0 ≤ t.crossMag2 := by
  obtain ⟨⟨x0, y0, z0⟩, ⟨x1, y1, z1⟩, ⟨x2, y2, z2⟩⟩ := t
  simp only [Triangle.crossMag2, Vec3.cross, Vec3.dot, Vec3.sub_x, Vec3.sub_y, Vec3.sub_z]
  nlinarith [sq_nonneg ((y1 - y0) * (z2 - z0) - (z1 - z0) * (y2 - y0)),
    sq_nonneg ((z1 - z0) * (x2 - x0) - (x1 - x0) * (z2 - z0)),
    sq_nonneg ((x1 - x0) * (y2 - y0) - (y1 - y0) * (x2 - x0))]

/-- A triangle whose squared cross product is `1/16` of another's has a
quarter of its area. -/
lemma Triangle.area_of_crossMag2_div16 (s t : Triangle)
    (h : s.crossMag2 = t.crossMag2 / 16) : s.area = t.area / 4 := by
  have ht : (0 : ℝ) ≤ (t.crossMag2 : ℝ) := by exact_mod_cast t.crossMag2_nonneg
  have hcast : ((s.crossMag2 : ℝ)) = (t.crossMag2 : ℝ) * (1 / 4) ^ 2 := by
    rw [h]
    push_cast
    ring
  have : Real.sqrt ((s.crossMag2 : ℝ)) = Real.sqrt ((t.crossMag2 : ℝ)) * (1 / 4) := by
    rw [hcast, Real.sqrt_mul ht, Real.sqrt_sq (by norm_num : (0:ℝ) ≤ 1 / 4)]
  simp only [Triangle.area, this]
  ring

lemma tri1_area : tri1.area = 2 := by
  have hc : tri1.crossMag2 = 16 := by
    simp only [tri1, Triangle.crossMag2, Vec3.cross, Vec3.dot, Vec3.sub_x, Vec3.sub_y,
      Vec3.sub_z]
    norm_num
  rw [Triangle.area, hc]
  rw [show ((16 : ℚ) : ℝ) = 4 ^ 2 by norm_num, Real.sqrt_sq (by norm_num : (0:ℝ) ≤ 4)]
  norm_num

/-- C9: `split_at_edge_midpoints` returns exactly 4 sub-triangles whose
areas sum to the area of the original triangle, and the base-2 height-2
triangle `tri1` has area exactly 2. -/
theorem C9_split_areas :
    (∀ t : Triangle,
      t.split_at_edge_midpoints.length = 4 ∧
      (t.split_at_edge_midpoints.map Triangle.area).sum = t.area) ∧
    tri1.area = 2 := by
  constructor
  · intro t
    refine ⟨rfl, ?_⟩
    have key : ∀ s ∈ t.split_at_edge_midpoints, s.crossMag2 = t.crossMag2 / 16 := by
      intro s hs
      obtain ⟨⟨x0, y0, z0⟩, ⟨x1, y1, z1⟩, ⟨x2, y2, z2⟩⟩ := t
      simp only [Triangle.split_at_edge_midpoints, Triangle.interpolate_vertex_at_bary,
        List.mem_cons, List.not_mem_nil, or_false] at hs
      rcases hs with rfl | rfl | rfl | rfl <;>
        · simp only [Triangle.crossMag2, Vec3.cross, Vec3.dot, Vec3.sub_x, Vec3.sub_y,
            Vec3.sub_z, Vec3.add_x, Vec3.add_y, Vec3.add_z, Vec3.smul_x, Vec3.smul_y,
            Vec3.smul_z]
          ring
    obtain ⟨s0, s1, s2, s3, hsplit⟩ :
        ∃ s0 s1 s2 s3, t.split_at_edge_midpoints = [s0, s1, s2, s3] := by
      refine ⟨_, _, _, _, rfl⟩
    rw [hsplit] at key ⊢
    have a0 := Triangle.area_of_crossMag2_div16 s0 t (key s0 (by simp))
    have a1 := Triangle.area_of_crossMag2_div16 s1 t (key s1 (by simp))
    have a2 := Triangle.area_of_crossMag2_div16 s2 t (key s2 (by simp))
    have a3 := Triangle.area_of_crossMag2_div16 s3 t (key s3 (by simp))
    simp only [List.map_cons, List.map_nil, List.sum_cons, List.sum_nil, a0, a1, a2, a3]
    ring
  · exact tri1_area

/-- Real-valued 3-vector for the sampled surface points of
`src/geom/surf.rs`, whose coordinates pass through `sqrt`. -/
structure RVec3 where
  x : ℝ
  y : ℝ
  z : ℝ

instance : Add RVec3 := ⟨fun a b => ⟨a.x + b.x, a.y + b.y, a.z + b.z⟩⟩

noncomputable instance : SMul ℝ RVec3 := ⟨fun q v => ⟨q * v.x, q * v.y, q * v.z⟩⟩

instance : Inhabited RVec3 := ⟨⟨0, 0, 0⟩⟩

/-- Embedding of the rational mesh coordinates into the real sample
space. -/
def Vec3.toR (v : Vec3) : RVec3 := ⟨(v.x : ℝ), (v.y : ℝ), (v.z : ℝ)⟩

/-- The hardcoded sampling density of `Surface::from_triangles`
(src/geom/surf.rs line 47): `let surfels_per_sqr_unit = 1000.0;`. -/
def surfels_per_sqr_unit : ℝ := 1000

/-- Number of points sampled on one triangle by `Surface::from_triangles`
(src/geom/surf.rs line 48): `(1000.0 * area(v0, v1, v2)).ceil() as i32`.
The free function `geom::tri::area` called there is not present under
src; its formula is the one of `Triangle::area` in src/geom/tri.rs,
which the spec confirms (`density x triangle_area`). -/
noncomputable def surfel_count (v0 v1 v2 : Vec3) : ℕ :=
  (⌈surfels_per_sqr_unit * (Triangle.mk v0 v1 v2).area⌉).toNat

/-- Modelled from the spec: the per-triangle sample count the spec
claims, `ceil(density x triangle_area)` with `density` a caller-given
parameter of `from_triangles`; the source has no such parameter. -/
noncomputable def spec_claimed_surfel_count (density : ℝ) (v0 v1 v2 : Vec3) : ℕ :=
  (⌈density * (Triangle.mk v0 v1 v2).area⌉).toNat

/-- One sampled point of `Surface::from_triangles`
(src/geom/surf.rs lines 51-55): the square-root-mapped barycentric
combination `(1-sqrt u) v0 + (sqrt u (1-v)) v1 + (sqrt u v) v2` of the
two uniform draws `u, v`. -/
noncomputable def sample_point (u v : ℝ) (v0 v1 v2 : Vec3) : RVec3 :=
  ((1 - Real.sqrt u) • v0.toR) + ((Real.sqrt u * (1 - v)) • v1.toR) +
    ((Real.sqrt u * v) • v2.toR)

/-- The points drawn on one triangle: the source's inner
`for _ in 0..surfel_count` loop, with the RNG modelled as a stream
`rng : ℕ → ℝ x ℝ` of `(u, v)` draws indexed by the global sample
counter `start + k`. -/
noncomputable def sample_tri_points (rng : ℕ → ℝ × ℝ) (start : ℕ) (v0 v1 v2 : Vec3) :
    List RVec3 :=
  (List.range (surfel_count v0 v1 v2)).map fun k =>
    sample_point (rng (start + k)).1 (rng (start + k)).2 v0 v1 v2

/-- Model of the `Surfel` struct of src/geom/surf.rs (position,
deterioration rates, material amounts). -/
structure SurfSurfel where
  position : RVec3
  delta_straight : ℚ
  delta_parabolic : ℚ
  delta_flow : ℚ
  materials : List ℚ

/-- Model of `Surface::from_points` (src/geom/surf.rs lines 67-84): one
surfel per point, each carrying the given deterioration rates and a
clone of the initial material composition. -/
def Surface.from_points (points : List RVec3) (ds dp df : ℚ) (init : List ℚ) :
    List SurfSurfel :=
  points.map fun p => ⟨p, ds, dp, df, init⟩

/-- Model of `indices.chunks(3)` followed by the triple projection
(src/geom/surf.rs lines 35-42); a trailing incomplete chunk is dropped
(the source would panic indexing into it, and no verified property
depends on that case). -/
def chunk3 : List ℕ → List (ℕ × ℕ × ℕ)
  | a :: b :: c :: rest => (a, b, c) :: chunk3 rest
  | _ => []

/-- Vertex fetch `positions[3i], positions[3i+1], positions[3i+2]` of
src/geom/surf.rs lines 38-40, with out-of-range reads defaulting to 0
(the source would panic; no verified property depends on that case). -/
def meshVertex (positions : List ℚ) (i : ℕ) : Vec3 :=
  ⟨positions.getD (3 * i) 0, positions.getD (3 * i + 1) 0, positions.getD (3 * i + 2) 0⟩

/-- Model of `Surface::from_triangles` (src/geom/surf.rs lines 32-65):
fold over the indexed triangles, appending `ceil(1000 * area)` sampled
points per triangle (the RNG stream index is the running point count),
then build one surfel per point. -/
noncomputable def Surface.from_triangles (positions : List ℚ) (indices : List ℕ)
    (ds dp df : ℚ) (init : List ℚ) (rng : ℕ → ℝ × ℝ) : List SurfSurfel :=
  let pts := (chunk3 indices).foldl
    (fun acc t => acc ++ sample_tri_points rng acc.length
      (meshVertex positions t.1) (meshVertex positions t.2.1) (meshVertex positions t.2.2))
    []
  Surface.from_points pts ds dp df init

lemma sample_tri_points_length (rng : ℕ → ℝ × ℝ) (start : ℕ) (v0 v1 v2 : Vec3) :
    (sample_tri_points rng start v0 v1 v2).length = surfel_count v0 v1 v2 := by
  simp [sample_tri_points]

lemma sample_fold_length (rng : ℕ → ℝ × ℝ) (positions : List ℚ) :
    ∀ (ts : List (ℕ × ℕ × ℕ)) (acc : List RVec3),
      (ts.foldl (fun acc t => acc ++ sample_tri_points rng acc.length
        (meshVertex positions t.1) (meshVertex positions t.2.1)
        (meshVertex positions t.2.2)) acc).length =
      acc.length + (ts.map (fun t => surfel_count (meshVertex positions t.1)
        (meshVertex positions t.2.1) (meshVertex positions t.2.2))).sum := by
  intro ts
  induction ts with
  | nil => intro acc; simp
  | cons hd tl ih =>
    intro acc
    simp only [List.foldl_cons, List.map_cons, List.sum_cons]
    rw [ih]
    simp only [List.length_append, sample_tri_points_length]
    omega

lemma surfel_count_tri1 : surfel_count ⟨-1, -1, 0⟩ ⟨1, -1, 0⟩ ⟨0, 1, 0⟩ = 2000 := by
  have h : Triangle.mk ⟨-1, -1, 0⟩ ⟨1, -1, 0⟩ ⟨0, 1, 0⟩ = tri1 := rfl
  simp only [surfel_count, h, tri1_area, surfels_per_sqr_unit]
  rw [show (1000 : ℝ) * 2 = ((2000 : ℤ) : ℝ) by norm_num, Int.ceil_intCast]
  rfl

/-- C3 counterexample: the sample count of `from_triangles` cannot track
a caller-given density, because the density is the hardcoded constant
1000: on the base-2 height-2 triangle (area 2) the source draws 2000
points, while the count the spec's sentence prescribes for a caller
passing density 2 would be 4. -/
theorem C3_density_not_a_parameter :
    surfel_count ⟨-1, -1, 0⟩ ⟨1, -1, 0⟩ ⟨0, 1, 0⟩ = 2000 ∧
    spec_claimed_surfel_count 2 ⟨-1, -1, 0⟩ ⟨1, -1, 0⟩ ⟨0, 1, 0⟩ = 4 ∧
    surfel_count ⟨-1, -1, 0⟩ ⟨1, -1, 0⟩ ⟨0, 1, 0⟩ ≠
      spec_claimed_surfel_count 2 ⟨-1, -1, 0⟩ ⟨1, -1, 0⟩ ⟨0, 1, 0⟩ := by
  have h2 : spec_claimed_surfel_count 2 ⟨-1, -1, 0⟩ ⟨1, -1, 0⟩ ⟨0, 1, 0⟩ = 4 := by
    have h : Triangle.mk ⟨-1, -1, 0⟩ ⟨1, -1, 0⟩ ⟨0, 1, 0⟩ = tri1 := rfl
    simp only [spec_claimed_surfel_count, h, tri1_area]
    rw [show (2 : ℝ) * 2 = ((4 : ℤ) : ℝ) by norm_num, Int.ceil_intCast]
    rfl
  refine ⟨surfel_count_tri1, h2, ?_⟩
  rw [surfel_count_tri1, h2]
  omega

/-- C3 (amended): `from_triangles` samples, for each indexed triangle,
exactly `ceil(1000 * area)` points (1000 is the hardcoded
`surfels_per_sqr_unit`, not a parameter); the k-th point of a triangle
is the square-root-mapped barycentric combination of the k-th pair of
uniform draws; and every sampled point becomes one surfel carrying the
given deterioration rates and a copy of the initial material vector. -/
theorem C3_from_triangles_sampling (positions : List ℚ) (indices : List ℕ)
    (ds dp df : ℚ) (init : List ℚ) (rng : ℕ → ℝ × ℝ) :
    (Surface.from_triangles positions indices ds dp df init rng).length =
      ((chunk3 indices).map (fun t => surfel_count (meshVertex positions t.1)
        (meshVertex positions t.2.1) (meshVertex positions t.2.2))).sum ∧
    (∀ s ∈ Surface.from_triangles positions indices ds dp df init rng,
      s.delta_straight = ds ∧ s.delta_parabolic = dp ∧ s.delta_flow = df ∧
        s.materials = init) ∧
    (∀ (start : ℕ) (v0 v1 v2 : Vec3) (k : ℕ), k < surfel_count v0 v1 v2 →
      (sample_tri_points rng start v0 v1 v2).getD k default =
        sample_point (rng (start + k)).1 (rng (start + k)).2 v0 v1 v2) := by
  refine ⟨?_, ?_, ?_⟩
  · simp only [Surface.from_triangles, Surface.from_points, List.length_map]
    have h := sample_fold_length rng positions (chunk3 indices) []
    simpa using h
  · intro s hs
    simp only [Surface.from_triangles, Surface.from_points, List.mem_map] at hs
    obtain ⟨p, _, rfl⟩ := hs
    exact ⟨rfl, rfl, rfl, rfl⟩
  · intro start v0 v1 v2 k hk
    simp only [sample_tri_points, List.getD_eq_getElem?_getD, List.getElem?_map,
      List.getElem?_range hk]
    rfl

/-- C3 witness: the per-point formula of `C3_from_triangles_sampling`
applied at the base-2 height-2 triangle with a constant RNG stream and
`k = 0`, the bound `0 < 2000` discharged concretely. -/
theorem C3_from_triangles_sampling_witness :
    (sample_tri_points (fun _ => ((0 : ℝ), (0 : ℝ))) 0
      ⟨-1, -1, 0⟩ ⟨1, -1, 0⟩ ⟨0, 1, 0⟩).getD 0 default =
      sample_point 0 0 ⟨-1, -1, 0⟩ ⟨1, -1, 0⟩ ⟨0, 1, 0⟩ := by
  have h := (C3_from_triangles_sampling [] [] 0 0 0 []
    (fun _ => ((0 : ℝ), (0 : ℝ)))).2.2 0 ⟨-1, -1, 0⟩ ⟨1, -1, 0⟩ ⟨0, 1, 0⟩ 0
    (by rw [surfel_count_tri1]; omega)
  simpa using h

lemma list_getD_cons_succ {α : Type _} (x : α) (xs : List α) (i : ℕ) (d : α) :
    (x :: xs).getD (i + 1) d = xs.getD i d := rfl

lemma list_getD_set_same {α : Type _} :
    ∀ (l : List α) (i : ℕ) (a d : α), i < l.length → (l.set i a).getD i d = a
  | [], i, a, d, h => absurd h (by simp)
  | _ :: _, 0, _, _, _ => rfl
  | x :: xs, i + 1, a, d, h => by
    simp only [List.set, list_getD_cons_succ]
    exact list_getD_set_same xs i a d (by simpa using h)

lemma list_getD_set_ne {α : Type _} :
    ∀ (l : List α) (i j : ℕ) (a d : α), i ≠ j → (l.set i a).getD j d = l.getD j d
  | [], _, _, _, _, _ => rfl
  | x :: xs, 0, 0, a, d, hij => absurd rfl hij
  | x :: xs, 0, j + 1, a, d, _ => rfl
  | x :: xs, i + 1, 0, a, d, _ => rfl
  | x :: xs, i + 1, j + 1, a, d, hij => by
    simp only [List.set, list_getD_cons_succ]
    exact list_getD_set_ne xs i j a d (fun h => hij (by omega))

lemma list_getD_zipWith {α β γ : Type _} (f : α → β → γ) :
    ∀ (l1 : List α) (l2 : List β) (i : ℕ) (d1 : α) (d2 : β) (d : γ),
      i < l1.length → i < l2.length →
      (List.zipWith f l1 l2).getD i d = f (l1.getD i d1) (l2.getD i d2)
  | [], _, i, _, _, _, h1, _ => absurd h1 (by simp)
  | _ :: _, [], i, _, _, _, _, h2 => absurd h2 (by simp)
  | a :: l1, b :: l2, 0, d1, d2, d, _, _ => rfl
  | a :: l1, b :: l2, i + 1, d1, d2, d, h1, h2 => by
    simp only [List.zipWith, list_getD_cons_succ]
    exact list_getD_zipWith f l1 l2 i d1 d2 d (by simpa using h1) (by simpa using h2)

lemma list_getD_map {α β : Type _} (f : α → β) :
    ∀ (l : List α) (i : ℕ) (d1 : α) (d : β), i < l.length →
      (List.map f l).getD i d = f (l.getD i d1)
  | [], i, _, _, h => absurd h (by simp)
  | a :: l, 0, _, _, _ => rfl
  | a :: l, i + 1, d1, d, h => by
    simp only [List.map, list_getD_cons_succ]
    exact list_getD_map f l i d1 d (by simpa using h)

lemma list_getD_mem_or_default {α : Type _} (l : List α) (i : ℕ) (d : α) :
    l.getD i d ∈ l ∨ l.getD i d = d := by
  by_cases h : i < l.length
  · left
    rw [List.getD_eq_getElem?_getD, List.getElem?_eq_getElem h]
    exact List.getElem_mem h
  · right
    rw [List.getD_eq_getElem?_getD, List.getElem?_eq_none (le_of_not_lt h)]
    rfl

/-- Modelled from the spec: the surfel record the tracing engine of
src/sim/sim.rs reads and writes (position, surface normal, the three
deterioration rates and the substance vector; spec section 3).  The
struct definition itself lives outside src (the `Surfel` in
src/geom/surf.rs is an older revision without `normal`/`substances`);
every field here is pinned by its uses in src/sim/sim.rs. -/
structure SimSurfel where
  position : Vec3
  normal : Vec3
  delta_straight : ℚ
  delta_parabolic : ℚ
  delta_flow : ℚ
  substances : List ℚ
deriving DecidableEq

instance : Inhabited SimSurfel := ⟨⟨default, default, 0, 0, 0, []⟩⟩

/-- Modelled from the spec: the gammaton record (three motion
probabilities, interaction radius, substance vector; spec section 3).
The struct definition lives outside src; every field here is pinned by
its uses in src/sim/sim.rs. -/
structure Ton where
  p_straight : ℚ
  p_parabolic : ℚ
  p_flow : ℚ
  interaction_radius : ℚ
  substances : List ℚ
deriving DecidableEq

/-- Model of `Simulation::transport_material_to_surf`
(src/sim/sim.rs lines 225-236): assert equal substance lengths (a
mismatch panics, modelled as `none`), then per channel
`surfel[ch] += weight * ton[ch]`; the ton is taken by shared reference
and never written. -/
def transport_material_to_surf (ton : Ton) (surfel : SimSurfel) (w : ℚ) :
    Option SimSurfel :=
  if surfel.substances.length = ton.substances.length then
    some { surfel with
      substances := List.zipWith (fun s t => s + w * t) surfel.substances ton.substances }
  else none

/-- Model of `Simulation::transport_material_to_ton`
(src/sim/sim.rs lines 238-252): assert equal substance lengths (a
mismatch panics, modelled as `none`), then per channel
`amount = weight * surfel[ch]; surfel[ch] -= amount; ton[ch] += amount`. -/
def transport_material_to_ton (surfel : SimSurfel) (ton : Ton) (w : ℚ) :
    Option (SimSurfel × Ton) :=
  if surfel.substances.length = ton.substances.length then
    some ({ surfel with substances := surfel.substances.map fun s => s - w * s },
          { ton with
            substances := List.zipWith (fun t s => t + w * s) ton.substances
              surfel.substances })
  else none

/-- C10: both transfer functions assert equal substance-vector lengths
and panic (here: return `none`) when they differ; under the equal-length
precondition the assertion never fires, both functions are total
(return `some`), and every channel of the pair is visited exactly once:
the output vectors keep their lengths and each output channel is the
transfer formula of exactly the corresponding input channels. -/
theorem C10_transfer_assert_totality (surfel : SimSurfel) (ton : Ton) (w : ℚ) :
    (surfel.substances.length = ton.substances.length →
      (∃ s, transport_material_to_surf ton surfel w = some s ∧
        s.substances.length = surfel.substances.length ∧
        ∀ ch, ch < surfel.substances.length →
          s.substances.getD ch 0 = surfel.substances.getD ch 0 +
            w * ton.substances.getD ch 0) ∧
      (∃ p, transport_material_to_ton surfel ton w = some p ∧
        p.1.substances.length = surfel.substances.length ∧
        p.2.substances.length = ton.substances.length ∧
        ∀ ch, ch < surfel.substances.length →
          p.1.substances.getD ch 0 = surfel.substances.getD ch 0 -
            w * surfel.substances.getD ch 0 ∧
          p.2.substances.getD ch 0 = ton.substances.getD ch 0 +
            w * surfel.substances.getD ch 0)) ∧
    (surfel.substances.length ≠ ton.substances.length →
      transport_material_to_surf ton surfel w = none ∧
      transport_material_to_ton surfel ton w = none) := by
  constructor
  · intro hlen
    constructor
    · refine ⟨{ surfel with
        substances := List.zipWith (fun s t => s + w * t) surfel.substances
          ton.substances }, ?_, ?_, ?_⟩
      · simp [transport_material_to_surf, hlen]
      · simp only [List.length_zipWith, hlen]
        omega
      · intro ch hch
        exact list_getD_zipWith _ surfel.substances ton.substances ch 0 0 0 hch
          (hlen ▸ hch)
    · refine ⟨({ surfel with substances := surfel.substances.map fun s => s - w * s },
        { ton with
          substances := List.zipWith (fun t s => t + w * s) ton.substances
            surfel.substances }), ?_, ?_, ?_, ?_⟩
      · simp [transport_material_to_ton, hlen]
      · simp only [List.length_map]
      · simp only [List.length_zipWith, hlen]
        omega
      · intro ch hch
        constructor
        · exact list_getD_map _ surfel.substances ch 0 0 hch
        · exact list_getD_zipWith _ ton.substances surfel.substances ch 0 0 0
            (hlen ▸ hch) hch
  · intro hlen
    constructor
    · simp [transport_material_to_surf, hlen]
    · simp [transport_material_to_ton, hlen]

/-- C10 witness: `C10_transfer_assert_totality` applied at a one-channel
pair with the equal-length hypothesis discharged. -/
theorem C10_transfer_assert_totality_witness :
    (∃ s, transport_material_to_surf ⟨1, 0, 0, 0, [0]⟩ ⟨default, default, 0, 0, 0, [1]⟩ 0 =
        some s ∧
      s.substances.length = 1 ∧
      ∀ ch, ch < 1 →
        s.substances.getD ch 0 = ((([1] : List ℚ)).getD ch 0 +
          0 * (([0] : List ℚ)).getD ch 0)) ∧
    (∃ p, transport_material_to_ton ⟨default, default, 0, 0, 0, [1]⟩ ⟨1, 0, 0, 0, [0]⟩ 0 =
        some p ∧
      p.1.substances.length = 1 ∧
      p.2.substances.length = 1 ∧
      ∀ ch, ch < 1 →
        p.1.substances.getD ch 0 = (([1] : List ℚ)).getD ch 0 -
          0 * (([1] : List ℚ)).getD ch 0 ∧
        p.2.substances.getD ch 0 = (([0] : List ℚ)).getD ch 0 +
          0 * (([1] : List ℚ)).getD ch 0) := by
  exact (C10_transfer_assert_totality ⟨default, default, 0, 0, 0, [1]⟩ ⟨1, 0, 0, 0, [0]⟩
    0).1 rfl

/-- C2: the surfel-to-particle transfer computes, per channel,
`amount = weight * surfel[ch]`, sets `surfel[ch] -= amount` and
`ton[ch] += amount`, so `surfel_after + particle_gain = surfel_before`
holds exactly per channel; for surfel value `0.4 = 2/5` and weight
`0.2 = 1/5` the surfel ends at `0.32 = 8/25` and the particle channel
gains `0.08 = 2/25`. -/
theorem C2_pickup_transfer :
    (∀ (surfel : SimSurfel) (ton : Ton) (w : ℚ),
      surfel.substances.length = ton.substances.length →
      ∃ s t, transport_material_to_ton surfel ton w = some (s, t) ∧
        ∀ ch, ch < surfel.substances.length →
          s.substances.getD ch 0 =
            surfel.substances.getD ch 0 - w * surfel.substances.getD ch 0 ∧
          t.substances.getD ch 0 =
            ton.substances.getD ch 0 + w * surfel.substances.getD ch 0 ∧
          s.substances.getD ch 0 + (t.substances.getD ch 0 - ton.substances.getD ch 0) =
            surfel.substances.getD ch 0) ∧
    transport_material_to_ton ⟨default, default, 0, 0, 0, [2/5]⟩ ⟨0, 0, 0, 0, [0]⟩ (1/5) =
      some (⟨default, default, 0, 0, 0, [8/25]⟩, ⟨0, 0, 0, 0, [2/25]⟩) := by
  constructor
  · intro surfel ton w hlen
    refine ⟨{ surfel with substances := surfel.substances.map fun s => s - w * s },
      { ton with
        substances := List.zipWith (fun t s => t + w * s) ton.substances
          surfel.substances }, ?_, ?_⟩
    · simp [transport_material_to_ton, hlen]
    · intro ch hch
      have hs := list_getD_map (fun s => s - w * s) surfel.substances ch 0 0 hch
      have ht := list_getD_zipWith (fun t s => t + w * s) ton.substances surfel.substances
        ch 0 0 0 (hlen ▸ hch) hch
      refine ⟨hs, ht, ?_⟩
      rw [hs, ht]
      ring
  · simp only [transport_material_to_ton, List.length_cons, List.length_nil, if_pos]
    norm_num

/-- C2 witness: the general part of `C2_pickup_transfer` applied at the
spec's concrete instance, the equal-length hypothesis discharged. -/
theorem C2_pickup_transfer_witness :
    ∃ s t, transport_material_to_ton ⟨default, default, 0, 0, 0, [2/5]⟩ ⟨0, 0, 0, 0, [0]⟩
        (1/5) = some (s, t) ∧
      ∀ ch, ch < (([2/5] : List ℚ)).length →
        s.substances.getD ch 0 =
          (([2/5] : List ℚ)).getD ch 0 - 1/5 * (([2/5] : List ℚ)).getD ch 0 ∧
        t.substances.getD ch 0 =
          (([0] : List ℚ)).getD ch 0 + 1/5 * (([2/5] : List ℚ)).getD ch 0 ∧
        s.substances.getD ch 0 + (t.substances.getD ch 0 - (([0] : List ℚ)).getD ch 0) =
          (([2/5] : List ℚ)).getD ch 0 :=
  C2_pickup_transfer.1 ⟨default, default, 0, 0, 0, [2/5]⟩ ⟨0, 0, 0, 0, [0]⟩ (1/5) rfl

/-- Model of `Simulation::deteriorate_motion_probabilities`
(src/sim/sim.rs lines 254-270): each probability is decremented by the
surfel's corresponding deterioration rate and clamped to 0 from below. -/
def deteriorate_motion_probabilities (ton : Ton) (surfel : SimSurfel) : Ton :=
  let ps := ton.p_straight - surfel.delta_straight
  let ps := if ps < 0 then 0 else ps
  let pp := ton.p_parabolic - surfel.delta_parabolic
  let pp := if pp < 0 then 0 else pp
  let pf := ton.p_flow - surfel.delta_flow
  let pf := if pf < 0 then 0 else pf
  { ton with p_straight := ps, p_parabolic := pp, p_flow := pf }

/-- The pick-up loop of the non-settling branch
(src/sim/sim.rs lines 156-161): `transport_material_to_ton` for every
interacting surfel index in order; the Bool is true when the length
assertion fired (the source would panic there). -/
def pickupAll (w : ℚ) : List ℕ → List SimSurfel → Ton → List SimSurfel × Ton × Bool
  | [], surface, ton => (surface, ton, false)
  | idx :: rest, surface, ton =>
    match transport_material_to_ton (surface.getD idx default) ton w with
    | none => (surface, ton, true)
    | some (s, t) => pickupAll w rest (surface.set idx s) t

/-- The settle loop (src/sim/sim.rs lines 181-186):
`transport_material_to_surf` for every interacting surfel index in
order; the Bool is true when the length assertion fired. -/
def depositAll (w : ℚ) : List ℕ → List SimSurfel → Ton → List SimSurfel × Bool
  | [], surface, _ => (surface, false)
  | idx :: rest, surface, ton =>
    match transport_material_to_surf ton (surface.getD idx default) w with
    | none => (surface, true)
    | some s => depositAll w rest (surface.set idx s) ton

/-- Oracle record for one bounce of `trace_straight`: the uniform draw
`r` (src/sim/sim.rs line 148) and the outcomes of the normalisation
pipelines that the rational model cannot evaluate exactly — the
reflected direction of lines 165-171 and the origin/direction that
`trace_flow` (lines 191-223) produces from the hit triangle. -/
structure Choice where
  r : ℚ
  reflectDir : Vec3
  flowOrigin : Vec3
  flowDir : Vec3

/-- How a modelled trace ended.  `escaped`, `noSurfels`, `settled` and
`parabolicEnd` mirror the four returns of `trace_straight`; `panicked`
marks a fired length assertion; `outOfFuel` / `outOfChoices` mark
exhaustion of the finite modelling budget for the source's unbounded
recursion. -/
inductive TraceResult where
  | escaped : TraceResult
  | noSurfels : TraceResult
  | settled : TraceResult
  | parabolicEnd : TraceResult
  | outOfFuel : TraceResult
  | outOfChoices : TraceResult
  | panicked : TraceResult
deriving DecidableEq

/-- Model of `Simulation::trace_straight` (src/sim/sim.rs lines
129-189).  `rayHit` is the octree query
`ray_intersection_target_and_parameter` restricted to the returned
parameter (the hit triangle only feeds the flow-direction computation,
which the `Choice` oracle supplies); `findWithin` is
`find_within_sphere_indexes`.  Per bounce: no hit ends the trace
(`escaped`); an empty interaction set ends it (`noSurfels`, the source
logs a warning); otherwise one random value decides pick-up
(deterioration by the first interacting surfel, then surfel-to-ton
transport over the whole set) and then the motion branch — reflect
(recurse from the epsilon-offset hit point), parabolic (no-op end),
flow (recurse with the oracle origin/direction) or settle (one-way
ton-to-surfel deposit over the whole set). -/
def trace (rayHit : Vec3 → Vec3 → Option ℚ) (findWithin : Vec3 → ℚ → List ℕ) (w : ℚ) :
    ℕ → List Choice → List SimSurfel → Ton → Vec3 → Vec3 →
      List SimSurfel × Ton × TraceResult
  | 0, _, surface, ton, _, _ => (surface, ton, TraceResult.outOfFuel)
  | fuel + 1, choices, surface, ton, origin, direction =>
    match rayHit origin direction with
    | none => (surface, ton, TraceResult.escaped)
    | some param =>
      let ip := origin + param • direction
      match findWithin ip ton.interaction_radius with
      | [] => (surface, ton, TraceResult.noSurfels)
      | idx0 :: idxRest =>
        match choices with
        | [] => (surface, ton, TraceResult.outOfChoices)
        | c :: choicesRest =>
          let stepped :=
            if c.r < ton.p_straight + ton.p_parabolic + ton.p_flow then
              pickupAll w (idx0 :: idxRest) surface
                (deteriorate_motion_probabilities ton (surface.getD idx0 default))
            else (surface, ton, false)
          let surface2 := stepped.1
          let ton2 := stepped.2.1
          if stepped.2.2 then (surface2, ton2, TraceResult.panicked)
          else if c.r < ton2.p_straight then
            trace rayHit findWithin w fuel choicesRest surface2 ton2
              (ip + ((1 : ℚ) / 1000000) • (surface2.getD idx0 default).normal)
              c.reflectDir
          else if c.r < ton2.p_straight + ton2.p_parabolic then
            (surface2, ton2, TraceResult.parabolicEnd)
          else if c.r < ton2.p_straight + ton2.p_parabolic + ton2.p_flow then
            trace rayHit findWithin w fuel choicesRest surface2 ton2 c.flowOrigin
              c.flowDir
          else
            let dep := depositAll w (idx0 :: idxRest) surface2 ton2
            if dep.2 then (dep.1, ton2, TraceResult.panicked)
            else (dep.1, ton2, TraceResult.settled)

/-- One emitted particle as produced by `TonSource::emit`: the ton, its
initial ray and the per-bounce oracle choices of its trace. -/
structure Emission where
  ton : Ton
  origin : Vec3
  direction : Vec3
  choices : List Choice

/-- Model of the emission loop of `Simulation::trace_particles`
(src/sim/sim.rs lines 123-125): every emitted particle is traced in
order against the shared surface. -/
def traceParticles (rayHit : Vec3 → Vec3 → Option ℚ) (findWithin : Vec3 → ℚ → List ℕ)
    (w : ℚ) (fuel : ℕ) : List Emission → List SimSurfel → List SimSurfel
  | [], surface => surface
  | e :: rest, surface =>
    traceParticles rayHit findWithin w fuel rest
      (trace rayHit findWithin w fuel e.choices surface e.ton e.origin e.direction).1

lemma depositAll_sound (w : ℚ) (idxs : List ℕ) :
    ∀ (surface : List SimSurfel) (ton : Ton),
      (∀ i ∈ idxs, i < surface.length) → idxs.Nodup →
      (∀ i ∈ idxs, (surface.getD i default).substances.length = ton.substances.length) →
      ∃ surface2, depositAll w idxs surface ton = (surface2, false) ∧
        surface2.length = surface.length ∧
        (∀ j, j ∉ idxs → surface2.getD j default = surface.getD j default) ∧
        (∀ i ∈ idxs, surface2.getD i default =
          { surface.getD i default with
            substances := List.zipWith (fun s t => s + w * t)
              (surface.getD i default).substances ton.substances }) := by
  induction idxs with
  | nil =>
    intro surface ton _ _ _
    exact ⟨surface, rfl, rfl, fun _ _ => rfl, by simp⟩
  | cons idx rest ih =>
    intro surface ton hvalid hnodup hlen
    have hidx : idx < surface.length := hvalid idx (by simp)
    have hlenidx : (surface.getD idx default).substances.length = ton.substances.length :=
      hlen idx (by simp)
    have hnotin : idx ∉ rest := (List.nodup_cons.mp hnodup).1
    have hnr : rest.Nodup := (List.nodup_cons.mp hnodup).2
    have hstep : transport_material_to_surf ton (surface.getD idx default) w =
        some { surface.getD idx default with
          substances := List.zipWith (fun s t => s + w * t)
            (surface.getD idx default).substances ton.substances } := by
      simp only [transport_material_to_surf]
      rw [if_pos hlenidx]
    obtain ⟨surface2, heq, hl2, hframe, hform⟩ := ih
      (surface.set idx { surface.getD idx default with
        substances := List.zipWith (fun s t => s + w * t)
          (surface.getD idx default).substances ton.substances }) ton
      (by
        intro i hi
        rw [List.length_set]
        exact hvalid i (by simp [hi]))
      hnr
      (by
        intro i hi
        have hne : idx ≠ i := fun h => hnotin (h ▸ hi)
        rw [list_getD_set_ne _ _ _ _ _ hne]
        exact hlen i (by simp [hi]))
    refine ⟨surface2, ?_, ?_, ?_, ?_⟩
    · simp only [depositAll]
      rw [hstep]
      exact heq
    · rw [hl2, List.length_set]
    · intro j hj
      have hj1 : j ≠ idx := fun h => hj (by simp [h])
      have hj2 : j ∉ rest := fun h => hj (by simp [h])
      rw [hframe j hj2, list_getD_set_ne _ _ _ _ _ (fun h => hj1 h.symm)]
    · intro i hi
      rcases List.mem_cons.mp hi with rfl | hi2
      · rw [hframe i hnotin, list_getD_set_same _ _ _ _ hidx]
      · have hne : idx ≠ i := fun h => hnotin (h ▸ hi2)
        rw [hform i hi2, list_getD_set_ne _ _ _ _ _ hne]

/-- C1: when the drawn random value is not below
`p_straight + p_parabolic + p_flow`, the bounce settles: every surfel of
the interaction set gains `weight * ton[channel]` on every substance
channel, and the particle's own substance vector (indeed the whole ton)
is returned unchanged — the deposit never decrements the ton. -/
theorem C1_settle_deposit (rayHit : Vec3 → Vec3 → Option ℚ)
    (findWithin : Vec3 → ℚ → List ℕ) (w : ℚ) (fuel : ℕ) (c : Choice)
    (choices : List Choice) (surface : List SimSurfel) (ton : Ton)
    (origin direction : Vec3) (param : ℚ) (idx0 : ℕ) (idxTail : List ℕ)
    (hhit : rayHit origin direction = some param)
    (hfind : findWithin (origin + param • direction) ton.interaction_radius =
      idx0 :: idxTail)
    (hr : ¬ (c.r < ton.p_straight + ton.p_parabolic + ton.p_flow))
    (hpp : 0 ≤ ton.p_parabolic) (hpf : 0 ≤ ton.p_flow)
    (hnodup : (idx0 :: idxTail).Nodup)
    (hvalid : ∀ i ∈ idx0 :: idxTail, i < surface.length)
    (hlen : ∀ i ∈ idx0 :: idxTail,
      (surface.getD i default).substances.length = ton.substances.length) :
    ∃ surface2,
      trace rayHit findWithin w (fuel + 1) (c :: choices) surface ton origin direction =
        (surface2, ton, TraceResult.settled) ∧
      ∀ i ∈ idx0 :: idxTail, ∀ ch, ch < ton.substances.length →
        (surface2.getD i default).substances.getD ch 0 =
          (surface.getD i default).substances.getD ch 0 +
            w * ton.substances.getD ch 0 := by
  obtain ⟨surface2, hdep, _, _, hform⟩ :=
    depositAll_sound w (idx0 :: idxTail) surface ton hvalid hnodup hlen
  have h1 : ¬ (c.r < ton.p_straight) := by
    push_neg at hr ⊢
    linarith
  have h2 : ¬ (c.r < ton.p_straight + ton.p_parabolic) := by
    push_neg at hr ⊢
    linarith
  refine ⟨surface2, ?_, ?_⟩
  · simp only [trace, hhit, hfind]
    rw [if_neg hr]
    simp only [if_neg h1, if_neg h2, if_neg hr, hdep, Bool.false_eq_true, if_false]
  · intro i hi ch hch
    rw [hform i hi]
    exact list_getD_zipWith _ _ _ ch 0 0 0 ((hlen i hi).symm ▸ hch) hch

/-- C1 witness: `C1_settle_deposit` at a one-surfel surface and a
settling draw (`r = 0` against all-zero probabilities), every hypothesis
discharged concretely. -/
theorem C1_settle_deposit_witness :
    ∃ surface2,
      trace (fun _ _ => some 1) (fun _ _ => [0]) (1/5) 1
          [⟨0, ⟨0, 0, 0⟩, ⟨0, 0, 0⟩, ⟨0, 0, 0⟩⟩]
          [⟨⟨0, 0, 0⟩, ⟨0, 0, 0⟩, 0, 0, 0, [0]⟩] ⟨0, 0, 0, 0, [1]⟩ ⟨0, 0, 0⟩ ⟨0, 0, 1⟩ =
        (surface2, (⟨0, 0, 0, 0, [1]⟩ : Ton), TraceResult.settled) ∧
      ∀ i ∈ [0], ∀ ch, ch < (Ton.mk 0 0 0 0 [1]).substances.length →
        (surface2.getD i default).substances.getD ch 0 =
          ((([⟨⟨0, 0, 0⟩, ⟨0, 0, 0⟩, 0, 0, 0, [0]⟩] : List SimSurfel)).getD i
              default).substances.getD ch 0 +
            (1/5) * (Ton.mk 0 0 0 0 [1]).substances.getD ch 0 :=
  C1_settle_deposit (fun _ _ => some 1) (fun _ _ => [0]) (1/5) 0
    ⟨0, ⟨0, 0, 0⟩, ⟨0, 0, 0⟩, ⟨0, 0, 0⟩⟩ [] [⟨⟨0, 0, 0⟩, ⟨0, 0, 0⟩, 0, 0, 0, [0]⟩]
    ⟨0, 0, 0, 0, [1]⟩ ⟨0, 0, 0⟩ ⟨0, 0, 1⟩ 1 0 [] rfl rfl (by norm_num) le_rfl le_rfl
    (by simp) (by simp) (by simp)

/-- C6: a trace with no ray hit ends as `escaped` with the surface and
the particle untouched; a hit whose interaction set is empty ends that
particle's trace as `noSurfels`, again with no surfel mutated in that
bounce (the source logs a warning there); and the failure is contained
to the particle — the emission loop goes on tracing the remaining
particles against whatever surface the finished trace left behind. -/
theorem C6_failure_containment (rayHit : Vec3 → Vec3 → Option ℚ)
    (findWithin : Vec3 → ℚ → List ℕ) (w : ℚ) (fuel : ℕ) (choices : List Choice)
    (surface : List SimSurfel) (ton : Ton) (origin direction : Vec3) :
    (rayHit origin direction = none →
      trace rayHit findWithin w (fuel + 1) choices surface ton origin direction =
        (surface, ton, TraceResult.escaped)) ∧
    (∀ param, rayHit origin direction = some param →
      findWithin (origin + param • direction) ton.interaction_radius = [] →
      trace rayHit findWithin w (fuel + 1) choices surface ton origin direction =
        (surface, ton, TraceResult.noSurfels)) ∧
    (∀ (e : Emission) (rest : List Emission),
      traceParticles rayHit findWithin w fuel (e :: rest) surface =
        traceParticles rayHit findWithin w fuel rest
          (trace rayHit findWithin w fuel e.choices surface e.ton e.origin
            e.direction).1) := by
  refine ⟨?_, ?_, ?_⟩
  · intro h
    simp only [trace, h]
  · intro param h hempty
    simp only [trace, h, hempty]
  · intro e rest
    rfl

/-- C6 witness: both failure branches of `C6_failure_containment`
applied at concrete oracles, the branch hypotheses discharged. -/
theorem C6_failure_containment_witness :
    trace (fun _ _ => none) (fun _ _ => []) 0 1 [] [] ⟨1, 0, 0, 0, []⟩ ⟨0, 0, 0⟩
        ⟨0, 0, 1⟩ = ([], (⟨1, 0, 0, 0, []⟩ : Ton), TraceResult.escaped) ∧
    trace (fun _ _ => some 1) (fun _ _ => []) 0 1 [] [] ⟨1, 0, 0, 0, []⟩ ⟨0, 0, 0⟩
        ⟨0, 0, 1⟩ = ([], (⟨1, 0, 0, 0, []⟩ : Ton), TraceResult.noSurfels) :=
  ⟨(C6_failure_containment (fun _ _ => none) (fun _ _ => []) 0 0 [] [] ⟨1, 0, 0, 0, []⟩
      ⟨0, 0, 0⟩ ⟨0, 0, 1⟩).1 rfl,
   (C6_failure_containment (fun _ _ => some 1) (fun _ _ => []) 0 0 [] [] ⟨1, 0, 0, 0, []⟩
      ⟨0, 0, 0⟩ ⟨0, 0, 1⟩).2.1 1 rfl rfl⟩

/-- Nonnegativity of the three motion probabilities of a ton. -/
def tonNonneg (t : Ton) : Prop :=
  0 ≤ t.p_straight ∧ 0 ≤ t.p_parabolic ∧ 0 ≤ t.p_flow

/-- Pointwise comparison of the three motion probabilities. -/
def tonLe (t1 t2 : Ton) : Prop :=
  t1.p_straight ≤ t2.p_straight ∧ t1.p_parabolic ≤ t2.p_parabolic ∧
    t1.p_flow ≤ t2.p_flow

/-- All deterioration rates of a surface are nonnegative (the spec's
reading of "deterioration rate"). -/
def surfDeltasNonneg (surface : List SimSurfel) : Prop :=
  ∀ s ∈ surface, 0 ≤ s.delta_straight ∧ 0 ≤ s.delta_parabolic ∧ 0 ≤ s.delta_flow

lemma tonLe_refl (t : Ton) : tonLe t t := ⟨le_rfl, le_rfl, le_rfl⟩

lemma tonLe_trans {t1 t2 t3 : Ton} (h12 : tonLe t1 t2) (h23 : tonLe t2 t3) :
    tonLe t1 t3 :=
  ⟨h12.1.trans h23.1, h12.2.1.trans h23.2.1, h12.2.2.trans h23.2.2⟩

lemma deteriorate_bounds (ton : Ton) (surfel : SimSurfel)
    (hd1 : 0 ≤ surfel.delta_straight) (hd2 : 0 ≤ surfel.delta_parabolic)
    (hd3 : 0 ≤ surfel.delta_flow) (hp1 : 0 ≤ ton.p_straight)
    (hp2 : 0 ≤ ton.p_parabolic) (hp3 : 0 ≤ ton.p_flow) :
    tonLe (deteriorate_motion_probabilities ton surfel) ton ∧
    tonNonneg (deteriorate_motion_probabilities ton surfel) := by
  simp only [deteriorate_motion_probabilities, tonLe, tonNonneg]
  refine ⟨⟨?_, ?_, ?_⟩, ?_, ?_, ?_⟩ <;> split <;> linarith

lemma transport_to_ton_fields (surfel : SimSurfel) (ton : Ton) (w : ℚ)
    (p : SimSurfel × Ton) (h : transport_material_to_ton surfel ton w = some p) :
    p.1.delta_straight = surfel.delta_straight ∧
    p.1.delta_parabolic = surfel.delta_parabolic ∧
    p.1.delta_flow = surfel.delta_flow ∧
    p.2.p_straight = ton.p_straight ∧
    p.2.p_parabolic = ton.p_parabolic ∧
    p.2.p_flow = ton.p_flow := by
  simp only [transport_material_to_ton] at h
  split at h
  · rw [Option.some_inj] at h
    subst h
    exact ⟨rfl, rfl, rfl, rfl, rfl, rfl⟩
  · exact absurd h (by simp)

lemma default_simSurfel_deltas :
    (default : SimSurfel).delta_straight = 0 ∧ (default : SimSurfel).delta_parabolic = 0 ∧
      (default : SimSurfel).delta_flow = 0 :=
  ⟨rfl, rfl, rfl⟩

lemma getD_deltas_nonneg (surface : List SimSurfel) (i : ℕ)
    (hS : surfDeltasNonneg surface) :
    0 ≤ (surface.getD i default).delta_straight ∧
    0 ≤ (surface.getD i default).delta_parabolic ∧
    0 ≤ (surface.getD i default).delta_flow := by
  rcases list_getD_mem_or_default surface i default with hm | hd
  · exact hS _ hm
  · rw [hd]
    exact ⟨le_rfl, le_rfl, le_rfl⟩

lemma pickupAll_invariant (w : ℚ) (idxs : List ℕ) :
    ∀ (surface : List SimSurfel) (ton : Ton), surfDeltasNonneg surface →
      surfDeltasNonneg (pickupAll w idxs surface ton).1 ∧
      (pickupAll w idxs surface ton).2.1.p_straight = ton.p_straight ∧
      (pickupAll w idxs surface ton).2.1.p_parabolic = ton.p_parabolic ∧
      (pickupAll w idxs surface ton).2.1.p_flow = ton.p_flow := by
  induction idxs with
  | nil =>
    intro surface ton hS
    exact ⟨hS, rfl, rfl, rfl⟩
  | cons idx rest ih =>
    intro surface ton hS
    rcases htr : transport_material_to_ton (surface.getD idx default) ton w with _ | ⟨s1, t1⟩
    · have hnone : pickupAll w (idx :: rest) surface ton = (surface, ton, true) := by
        simp only [pickupAll, htr]
      rw [hnone]
      exact ⟨hS, rfl, rfl, rfl⟩
    · have hsome : pickupAll w (idx :: rest) surface ton =
          pickupAll w rest (surface.set idx s1) t1 := by
        simp only [pickupAll, htr]
      rw [hsome]
      obtain ⟨hd1, hd2, hd3, hp1, hp2, hp3⟩ :=
        transport_to_ton_fields (surface.getD idx default) ton w (s1, t1) htr
      have hS2 : surfDeltasNonneg (surface.set idx s1) := by
        intro s hs
        rcases List.mem_or_eq_of_mem_set hs with hm | rfl
        · exact hS s hm
        · rw [hd1, hd2, hd3]
          exact getD_deltas_nonneg surface idx hS
      obtain ⟨h1, h2, h3, h4⟩ := ih (surface.set idx s1) t1 hS2
      exact ⟨h1, h2.trans hp1, h3.trans hp2, h4.trans hp3⟩

lemma trace_tons_bounded (rayHit : Vec3 → Vec3 → Option ℚ)
    (findWithin : Vec3 → ℚ → List ℕ) (w : ℚ) :
    ∀ (fuel : ℕ) (choices : List Choice) (surface : List SimSurfel) (ton : Ton)
      (origin direction : Vec3), surfDeltasNonneg surface → tonNonneg ton →
      tonLe (trace rayHit findWithin w fuel choices surface ton origin
          direction).2.1 ton ∧
        tonNonneg (trace rayHit findWithin w fuel choices surface ton origin
          direction).2.1 := by
  intro fuel
  induction fuel with
  | zero =>
    intro choices surface ton origin direction _ hT
    exact ⟨tonLe_refl ton, hT⟩
  | succ fuel ih =>
    intro choices surface ton origin direction hS hT
    rcases hhit : rayHit origin direction with _ | param
    · have h : trace rayHit findWithin w (fuel + 1) choices surface ton origin
          direction = (surface, ton, TraceResult.escaped) := by
        simp only [trace, hhit]
      rw [h]
      exact ⟨tonLe_refl ton, hT⟩
    · rcases hfind : findWithin (origin + param • direction) ton.interaction_radius with
        _ | ⟨idx0, idxRest⟩
      · have h : trace rayHit findWithin w (fuel + 1) choices surface ton origin
            direction = (surface, ton, TraceResult.noSurfels) := by
          simp only [trace, hhit, hfind]
        rw [h]
        exact ⟨tonLe_refl ton, hT⟩
      · rcases choices with _ | ⟨c, choicesRest⟩
        · have h : trace rayHit findWithin w (fuel + 1) [] surface ton origin
              direction = (surface, ton, TraceResult.outOfChoices) := by
            simp only [trace, hhit, hfind]
          rw [h]
          exact ⟨tonLe_refl ton, hT⟩
        · obtain ⟨surface2, ton2, pan, hstep, hS2, hLe2, hT2⟩ :
              ∃ surface2 ton2 pan,
                (if c.r < ton.p_straight + ton.p_parabolic + ton.p_flow then
                    pickupAll w (idx0 :: idxRest) surface
                      (deteriorate_motion_probabilities ton
                        (surface.getD idx0 default))
                  else (surface, ton, false)) = (surface2, ton2, pan) ∧
                surfDeltasNonneg surface2 ∧ tonLe ton2 ton ∧ tonNonneg ton2 := by
            by_cases hc : c.r < ton.p_straight + ton.p_parabolic + ton.p_flow
            · rw [if_pos hc]
              obtain ⟨hdd1, hdd2, hdd3⟩ := getD_deltas_nonneg surface idx0 hS
              obtain ⟨hdle, hdnn⟩ := deteriorate_bounds ton (surface.getD idx0 default)
                hdd1 hdd2 hdd3 hT.1 hT.2.1 hT.2.2
              obtain ⟨hS2, he1, he2, he3⟩ := pickupAll_invariant w (idx0 :: idxRest)
                surface (deteriorate_motion_probabilities ton
                  (surface.getD idx0 default)) hS
              refine ⟨(pickupAll w (idx0 :: idxRest) surface
                    (deteriorate_motion_probabilities ton
                      (surface.getD idx0 default))).1,
                (pickupAll w (idx0 :: idxRest) surface
                    (deteriorate_motion_probabilities ton
                      (surface.getD idx0 default))).2.1,
                (pickupAll w (idx0 :: idxRest) surface
                    (deteriorate_motion_probabilities ton
                      (surface.getD idx0 default))).2.2, rfl, hS2, ?_, ?_⟩
              · exact ⟨by rw [he1]; exact hdle.1, by rw [he2]; exact hdle.2.1,
                  by rw [he3]; exact hdle.2.2⟩
              · exact ⟨by rw [he1]; exact hdnn.1, by rw [he2]; exact hdnn.2.1,
                  by rw [he3]; exact hdnn.2.2⟩
            · rw [if_neg hc]
              exact ⟨surface, ton, false, rfl, hS, tonLe_refl ton, hT⟩
          simp only [trace, hhit, hfind]
          rw [hstep]
          cases pan with
          | false =>
            rw [if_neg (show ¬ (((surface2, ton2, false) :
                List SimSurfel × Ton × Bool).2.2 = true) by simp)]
            split
            · obtain ⟨hle, hnn⟩ := ih choicesRest surface2 ton2 _ c.reflectDir hS2 hT2
              exact ⟨tonLe_trans hle hLe2, hnn⟩
            · split
              · exact ⟨hLe2, hT2⟩
              · split
                · obtain ⟨hle, hnn⟩ := ih choicesRest surface2 ton2 c.flowOrigin
                    c.flowDir hS2 hT2
                  exact ⟨tonLe_trans hle hLe2, hnn⟩
                · split
                  · exact ⟨hLe2, hT2⟩
                  · exact ⟨hLe2, hT2⟩
          | true =>
            rw [if_pos (show ((surface2, ton2, true) :
                List SimSurfel × Ton × Bool).2.2 = true by simp)]
            exact ⟨hLe2, hT2⟩

/-- C4: over a particle's whole trace each of the three motion
probabilities is monotonically non-increasing and never negative, given
the spec's reading that deterioration rates are nonnegative and the
initial probabilities are nonnegative — the only operation that changes
them is the deterioration step `p -= delta` floored at 0, applied with
the deltas of the first surfel of the interaction set; in particular
`p_straight = 1` deteriorated by `delta_straight = 1.5` yields exactly
0. -/
theorem C4_probabilities_monotone (rayHit : Vec3 → Vec3 → Option ℚ)
    (findWithin : Vec3 → ℚ → List ℕ) (w : ℚ) (fuel : ℕ) (choices : List Choice)
    (surface : List SimSurfel) (ton : Ton) (origin direction : Vec3)
    (hS : surfDeltasNonneg surface) (hT : tonNonneg ton) :
    (deteriorate_motion_probabilities ⟨1, 0, 0, 0, []⟩
        ⟨default, default, 3/2, 0, 0, []⟩).p_straight = 0 ∧
    tonLe (trace rayHit findWithin w fuel choices surface ton origin
        direction).2.1 ton ∧
    tonNonneg (trace rayHit findWithin w fuel choices surface ton origin
      direction).2.1 := by
  refine ⟨?_, trace_tons_bounded rayHit findWithin w fuel choices surface ton origin
    direction hS hT⟩
  simp only [deteriorate_motion_probabilities]
  norm_num

/-- C4 witness: `C4_probabilities_monotone` at an empty surface and an
all-ones probability ton, the nonnegativity hypotheses discharged
concretely. -/
theorem C4_probabilities_monotone_witness :
    (deteriorate_motion_probabilities ⟨1, 0, 0, 0, []⟩
        ⟨default, default, 3/2, 0, 0, []⟩).p_straight = 0 ∧
    tonLe (trace (fun _ _ => none) (fun _ _ => []) 0 0 [] [] ⟨1, 1, 1, 0, []⟩
        ⟨0, 0, 0⟩ ⟨0, 0, 1⟩).2.1 ⟨1, 1, 1, 0, []⟩ ∧
    tonNonneg (trace (fun _ _ => none) (fun _ _ => []) 0 0 [] [] ⟨1, 1, 1, 0, []⟩
      ⟨0, 0, 0⟩ ⟨0, 0, 1⟩).2.1 :=
  C4_probabilities_monotone (fun _ _ => none) (fun _ _ => []) 0 0 [] []
    ⟨1, 1, 1, 0, []⟩ ⟨0, 0, 0⟩ ⟨0, 0, 1⟩ (by intro s hs; simp at hs)
    (by refine ⟨?_, ?_, ?_⟩ <;> norm_num)
